import Mathlib

/-!
A shallow embedding of the `luthor` tokenizer core (`src/tokenizer.rs`) and
proofs of its specified properties.

Modelling conventions:
- Rust `String` data is modelled as `List Char`: each `Char` is one Unicode
  scalar value, so scalar-indexed operations (`chars().count()`,
  `chars().nth(i)`, `slice_chars`) become `List.length`, `List.get?`,
  `drop`/`take` on the scalar list.
- `usize` is modelled as `Nat`.  The one place where usize overflow can
  occur (`token_position + amount` in `tokenize_next`) is modelled
  separately by `Luthor.tokenize_next_usize`, which returns `none` exactly
  when the machine addition would overflow (a panic in a checked build; in
  an unchecked build the wrapped sum is strictly below `token_start`, and
  the subsequent `slice_chars` call panics).
- All operations are pure state transformers `Tokenizer → Tokenizer`.
-/

namespace Luthor

/-- Modelled from the spec: the token category label (`token.rs` is not part
of the provided sources).  The spec describes it as an opaque enumerated
label whose only distinguished variant is the generic plain-text one used
internally by `tokenize_next`; the remaining variants are interchangeable
opaque labels. -/
inductive Category where
  | Text
  | Whitespace
  | Keyword
  | Identifier
  | Operator
  | Comment
  deriving DecidableEq, Repr

/-- Modelled from the spec: a token is an immutable pair of a lexeme (the
exact consumed substring, as a sequence of Unicode scalars) and a category
label (`token.rs` is not part of the provided sources). -/
structure Token where
  lexeme : List Char
  category : Category
  deriving DecidableEq, Repr

/-- The deprecated Rust `str::slice_chars(begin, end)`: the scalar-index
range `[begin, end)` of the text.  The Rust function panics when
`begin > end` or `end` exceeds the scalar length; every call site in the
tokenizer satisfies `begin ≤ end ≤ length` (see the well-formedness
lemmas below), where this total model agrees with it. -/
def slice_chars (data : List Char) (b e : Nat) : List Char :=
  (data.drop b).take (e - b)

/-- The `Tokenizer` struct: source text, precomputed scalar count, flush
marker, cursor, and the accumulated token list. -/
structure Tokenizer where
  data : List Char
  char_count : Nat
  token_start : Nat
  token_position : Nat
  tokens : List Token
  deriving DecidableEq, Repr

/-- `tokenizer::new(data)`: stores the text, counts its Unicode scalar
values, zeroes both indices, and starts with an empty token list. -/
def new (data : List Char) : Tokenizer :=
  { data := data
    char_count := data.length
    token_start := 0
    token_position := 0
    tokens := [] }

/-- `Tokenizer::tokens()`: a copy of the tokens processed to date. -/
def Tokenizer.tokens_list (t : Tokenizer) : List Token :=
  t.tokens

/-- `Tokenizer::has_more_data()`: whether `token_position < char_count`. -/
def Tokenizer.has_more_data (t : Tokenizer) : Bool :=
  t.token_position < t.char_count

/-- `Tokenizer::advance()`: moves the cursor one scalar forward, or does
nothing once all data is processed. -/
def Tokenizer.advance (t : Tokenizer) : Tokenizer :=
  if t.has_more_data then { t with token_position := t.token_position + 1 }
  else t

/-- `advance` iterated `n` times (used to state the repeated-call clauses
of the spec). -/
def Tokenizer.advanceN (t : Tokenizer) : Nat → Tokenizer
  | 0 => t
  | n + 1 => (t.advanceN n).advance

/-- `Tokenizer::current_char()`: the scalar value at scalar index
`token_position` (`data.chars().nth(token_position)`), or `none` when all
data is processed. -/
def Tokenizer.current_char (t : Tokenizer) : Option Char :=
  if t.has_more_data then t.data.get? t.token_position
  else none

/-- `Tokenizer::tokenize(category)`: when any characters are pending
(`token_start != token_position`), pushes one token whose lexeme is the
scalar range `[token_start, token_position)` and advances `token_start`
to the cursor; otherwise does nothing. -/
def Tokenizer.tokenize (t : Tokenizer) (category : Category) : Tokenizer :=
  if t.token_start ≠ t.token_position then
    { t with
      tokens := t.tokens ++
        [{ lexeme := slice_chars t.data t.token_start t.token_position
           category := category }]
      token_start := t.token_position }
  else t

/-- `Tokenizer::tokenize_next(amount, category)`: flushes pending input as
plain text, clamps the cursor forward by `amount` (`min(token_position +
amount, char_count)`), and flushes the newly consumed span under the given
category.  Idealized-integer (`Nat`) model of the usize addition; see
`tokenize_next_usize` for the machine-arithmetic refinement, which agrees
with this model on exactly the non-overflowing calls — the ones on which
the source completes at all (`tokenize_next_usize_some`). -/
def Tokenizer.tokenize_next (t : Tokenizer) (amount : Nat) (category : Category) : Tokenizer :=
  let t1 := t.tokenize Category.Text
  let t2 := { t1 with token_position := min (t1.token_position + amount) t1.char_count }
  t2.tokenize category

/-- The number of usize values: `token_position + amount` in
`tokenize_next` is a 64-bit machine addition. -/
def USIZE : Nat := 2 ^ 64

/-- `Tokenizer::tokenize_next` with the usize addition modelled faithfully:
`none` models the arithmetic-overflow panic of
`self.token_position + amount` in a checked build.  (In an unchecked build
the sum wraps below `token_start`, and the `slice_chars` call inside the
second `tokenize` panics instead, so every `none` here is a panic in
either build.) -/
def tokenize_next_usize (t : Tokenizer) (amount : Nat) (category : Category) : Option Tokenizer :=
  let t1 := t.tokenize Category.Text
  if t1.token_position + amount < USIZE then
    some (Tokenizer.tokenize
      { t1 with token_position := min (t1.token_position + amount) t1.char_count }
      category)
  else
    none

/-- The states a `Tokenizer` can actually be in: produced by `new` and
closed under the mutating operations. -/
inductive Reachable : Tokenizer → Prop where
  | new (data : List Char) : Reachable (new data)
  | advance {t : Tokenizer} : Reachable t → Reachable t.advance
  | tokenize {t : Tokenizer} (c : Category) : Reachable t → Reachable (t.tokenize c)
  | tokenize_next {t : Tokenizer} (amount : Nat) (c : Category) :
      Reachable t → Reachable (t.tokenize_next amount c)

/-- The index-ordering invariant of the spec:
`token_start ≤ token_position ≤ char_count` (the lower bound `0 ≤
token_start` is inherent in the unsigned index type). -/
def Inv (t : Tokenizer) : Prop :=
  t.token_start ≤ t.token_position ∧ t.token_position ≤ t.char_count

/-- Well-formedness: the index-ordering invariant together with agreement
of the precomputed scalar count with the data. -/
def Wf (t : Tokenizer) : Prop :=
  Inv t ∧ t.char_count = t.data.length

/-! ### Basic facts about the operations -/

theorem tokenize_token_start_eq (t : Tokenizer) (c : Category) :
    (t.tokenize c).token_start = (t.tokenize c).token_position := by
  unfold Tokenizer.tokenize
  by_cases h : t.token_start = t.token_position <;> simp [h]

theorem tokenize_position (t : Tokenizer) (c : Category) :
    (t.tokenize c).token_position = t.token_position := by
  unfold Tokenizer.tokenize
  by_cases h : t.token_start = t.token_position <;> simp [h]

theorem tokenize_data (t : Tokenizer) (c : Category) :
    (t.tokenize c).data = t.data := by
  unfold Tokenizer.tokenize
  by_cases h : t.token_start = t.token_position <;> simp [h]

theorem tokenize_char_count (t : Tokenizer) (c : Category) :
    (t.tokenize c).char_count = t.char_count := by
  unfold Tokenizer.tokenize
  by_cases h : t.token_start = t.token_position <;> simp [h]

theorem tokenize_tokens (t : Tokenizer) (c : Category) :
    (t.tokenize c).tokens = t.tokens ++
      (if t.token_start = t.token_position then []
       else [{ lexeme := slice_chars t.data t.token_start t.token_position
               category := c }]) := by
  unfold Tokenizer.tokenize
  by_cases h : t.token_start = t.token_position <;> simp [h]

theorem advance_token_start (t : Tokenizer) :
    t.advance.token_start = t.token_start := by
  unfold Tokenizer.advance
  by_cases hm : t.has_more_data <;> simp [hm]

theorem advance_tokens (t : Tokenizer) :
    t.advance.tokens = t.tokens := by
  unfold Tokenizer.advance
  by_cases hm : t.has_more_data <;> simp [hm]

theorem advance_data (t : Tokenizer) :
    t.advance.data = t.data := by
  unfold Tokenizer.advance
  by_cases hm : t.has_more_data <;> simp [hm]

theorem advance_char_count (t : Tokenizer) :
    t.advance.char_count = t.char_count := by
  unfold Tokenizer.advance
  by_cases hm : t.has_more_data <;> simp [hm]

/-- The intermediate state inside `tokenize_next`, after the plain-text
flush and the clamped cursor move. -/
def Tokenizer.clamp_state (t : Tokenizer) (amount : Nat) : Tokenizer :=
  { t.tokenize Category.Text with
    token_position :=
      min ((t.tokenize Category.Text).token_position + amount)
        (t.tokenize Category.Text).char_count }

theorem tokenize_next_eq (t : Tokenizer) (amount : Nat) (c : Category) :
    t.tokenize_next amount c = (t.clamp_state amount).tokenize c := rfl

theorem inv_new (data : List Char) : Inv (new data) := by
  simp [Inv, new]

theorem inv_advance {t : Tokenizer} (h : Inv t) : Inv t.advance := by
  obtain ⟨h1, h2⟩ := h
  unfold Tokenizer.advance
  by_cases hm : t.has_more_data
  · have hlt : t.token_position < t.char_count := by
      simpa [Tokenizer.has_more_data] using hm
    simp only [hm, if_true]
    exact ⟨Nat.le_succ_of_le h1, hlt⟩
  · simp only [hm, if_false]
    exact ⟨h1, h2⟩

theorem inv_tokenize {t : Tokenizer} (c : Category) (h : Inv t) : Inv (t.tokenize c) := by
  obtain ⟨h1, h2⟩ := h
  unfold Tokenizer.tokenize
  by_cases hs : t.token_start = t.token_position
  · simp only [hs, ne_eq, not_true_eq_false, if_false]
    exact ⟨h1, h2⟩
  · simp only [ne_eq, hs, not_false_eq_true, if_true]
    exact ⟨Nat.le_refl _, h2⟩

theorem inv_clamp_state {t : Tokenizer} (amount : Nat) (h : Inv t) :
    Inv (t.clamp_state amount) := by
  have h1 : Inv (t.tokenize Category.Text) := inv_tokenize _ h
  refine ⟨?_, ?_⟩
  · show (t.tokenize Category.Text).token_start ≤ _
    rw [tokenize_token_start_eq]
    exact Nat.le_min.mpr ⟨Nat.le_add_right _ _, h1.2⟩
  · exact Nat.min_le_right _ _

theorem inv_tokenize_next {t : Tokenizer} (amount : Nat) (c : Category) (h : Inv t) :
    Inv (t.tokenize_next amount c) := by
  rw [tokenize_next_eq]
  exact inv_tokenize c (inv_clamp_state amount h)

theorem clamp_state_data (t : Tokenizer) (amount : Nat) :
    (t.clamp_state amount).data = t.data := by
  simp [Tokenizer.clamp_state, tokenize_data]

theorem clamp_state_char_count (t : Tokenizer) (amount : Nat) :
    (t.clamp_state amount).char_count = t.char_count := by
  simp [Tokenizer.clamp_state, tokenize_char_count]

theorem clamp_state_tokens (t : Tokenizer) (amount : Nat) :
    (t.clamp_state amount).tokens = (t.tokenize Category.Text).tokens := rfl

theorem clamp_state_token_start (t : Tokenizer) (amount : Nat) :
    (t.clamp_state amount).token_start = (t.tokenize Category.Text).token_start := rfl

theorem wf_new (data : List Char) : Wf (new data) :=
  ⟨inv_new data, rfl⟩

theorem wf_advance {t : Tokenizer} (h : Wf t) : Wf t.advance :=
  ⟨inv_advance h.1, by rw [advance_char_count, advance_data]; exact h.2⟩

theorem wf_tokenize {t : Tokenizer} (c : Category) (h : Wf t) : Wf (t.tokenize c) :=
  ⟨inv_tokenize c h.1, by rw [tokenize_char_count, tokenize_data]; exact h.2⟩

theorem wf_clamp_state {t : Tokenizer} (amount : Nat) (h : Wf t) :
    Wf (t.clamp_state amount) :=
  ⟨inv_clamp_state amount h.1,
   by rw [clamp_state_char_count, clamp_state_data]; exact h.2⟩

theorem wf_tokenize_next {t : Tokenizer} (amount : Nat) (c : Category) (h : Wf t) :
    Wf (t.tokenize_next amount c) := by
  rw [tokenize_next_eq]
  exact wf_tokenize c (wf_clamp_state amount h)

theorem reachable_wf {t : Tokenizer} (h : Reachable t) : Wf t := by
  induction h with
  | new data => exact wf_new data
  | advance _ ih => exact wf_advance ih
  | tokenize c _ ih => exact wf_tokenize c ih
  | tokenize_next amount c _ ih => exact wf_tokenize_next amount c ih

theorem tokenize_noop_of_eq {t : Tokenizer} (c : Category)
    (h : t.token_start = t.token_position) : t.tokenize c = t := by
  unfold Tokenizer.tokenize
  simp [h]

theorem slice_chars_ne_nil {data : List Char} {b e : Nat}
    (hbe : b < e) (he : e ≤ data.length) : slice_chars data b e ≠ [] := by
  rw [← List.length_pos, slice_chars, List.length_take, List.length_drop]
  omega

theorem tokenize_lexemes_ne_nil {t : Tokenizer} (c : Category) (hwf : Wf t)
    (ih : ∀ tok ∈ t.tokens, tok.lexeme ≠ []) :
    ∀ tok ∈ (t.tokenize c).tokens, tok.lexeme ≠ [] := by
  intro tok htok
  rw [tokenize_tokens] at htok
  by_cases hs : t.token_start = t.token_position
  · simp only [hs, if_true, List.append_nil] at htok
    exact ih tok htok
  · simp only [hs, if_false, List.mem_append, List.mem_singleton] at htok
    rcases htok with htok | htok
    · exact ih tok htok
    · subst htok
      obtain ⟨⟨h1, h2⟩, h3⟩ := hwf
      exact slice_chars_ne_nil (Nat.lt_of_le_of_ne h1 hs) (h3 ▸ h2)

theorem reachable_lexemes_ne_nil {t : Tokenizer} (h : Reachable t) :
    ∀ tok ∈ t.tokens, tok.lexeme ≠ [] := by
  induction h with
  | new data => simp [new]
  | advance _ ih =>
      intro tok htok
      rw [advance_tokens] at htok
      exact ih tok htok
  | tokenize c hr ih => exact tokenize_lexemes_ne_nil c (reachable_wf hr) ih
  | tokenize_next amount c hr ih =>
      rw [tokenize_next_eq]
      apply tokenize_lexemes_ne_nil c (wf_clamp_state amount (reachable_wf hr))
      intro tok htok
      rw [clamp_state_tokens] at htok
      exact tokenize_lexemes_ne_nil Category.Text (reachable_wf hr) ih tok htok

/-- The concatenation of the stored lexemes, in list order. -/
def flushed (t : Tokenizer) : List Char :=
  (t.tokens.map Token.lexeme).flatten

theorem flushed_tokenize {t : Tokenizer} (c : Category) (hwf : Wf t)
    (ih : flushed t = t.data.take t.token_start) :
    flushed (t.tokenize c) = (t.tokenize c).data.take (t.tokenize c).token_start := by
  by_cases hs : t.token_start = t.token_position
  · rw [tokenize_noop_of_eq c hs]
    exact ih
  · obtain ⟨⟨h1, h2⟩, h3⟩ := hwf
    unfold flushed at ih ⊢
    rw [tokenize_tokens, tokenize_data, tokenize_token_start_eq, tokenize_position]
    simp only [hs, if_false]
    rw [List.map_append, List.flatten_append, ih]
    simp only [List.map_cons, List.map_nil, List.flatten_cons, List.flatten_nil,
      List.append_nil]
    rw [slice_chars, ← List.take_add]
    congr 1
    omega

theorem reachable_flushed {t : Tokenizer} (h : Reachable t) :
    flushed t = t.data.take t.token_start := by
  induction h with
  | new data => simp [flushed, new]
  | advance _ ih =>
      unfold flushed
      rw [advance_tokens, advance_data, advance_token_start]
      exact ih
  | tokenize c hr ih => exact flushed_tokenize c (reachable_wf hr) ih
  | tokenize_next amount c hr ih =>
      rw [tokenize_next_eq]
      apply flushed_tokenize c (wf_clamp_state amount (reachable_wf hr))
      unfold flushed
      rw [clamp_state_tokens, clamp_state_data, clamp_state_token_start]
      have h4 := flushed_tokenize Category.Text (reachable_wf hr) ih
      unfold flushed at h4
      rw [tokenize_data] at h4
      exact h4

/-- The UTF-8 byte length of a scalar sequence (Rust `str::len`), used to
state that `char_count` counts scalars, not bytes. -/
def utf8_byte_length (l : List Char) : Nat :=
  (l.map Char.utf8Size).sum

/-! ### The claims -/

/-- Claim C4: for every text (including multi-byte scripts and the empty
text), construction succeeds and yields a Tokenizer whose `char_count` is
the number of Unicode scalar values of the text (not its byte length, as
the final two conjuncts illustrate on a two-byte scalar), whose
`token_start` and `token_position` are both 0, and whose token list is
empty. -/
theorem C4_construction (data : List Char) :
    (new data).char_count = data.length ∧
    (new data).token_start = 0 ∧
    (new data).token_position = 0 ∧
    (new data).tokens = [] ∧
    (new data).data = data ∧
    (new ['é']).char_count = 1 ∧
    utf8_byte_length ['é'] = 2 :=
  ⟨rfl, rfl, rfl, rfl, rfl, rfl, by decide⟩

/-- Claim C5: `advance` increments `token_position` by exactly one scalar
unit when `has_more_data` is true and is a no-op otherwise; consequently
`token_position` never exceeds `char_count`, and any number of `advance`
calls at the end leaves `token_position` unchanged at `char_count`. -/
theorem C5_advance_props (t : Tokenizer) (n : Nat) :
    (t.has_more_data = true → t.advance.token_position = t.token_position + 1) ∧
    (t.has_more_data = false → t.advance = t) ∧
    (t.token_position ≤ t.char_count → t.advance.token_position ≤ t.char_count) ∧
    (t.token_position = t.char_count → t.advanceN n = t) := by
  refine ⟨?_, ?_, ?_, ?_⟩
  · intro hm
    unfold Tokenizer.advance
    simp [hm]
  · intro hm
    unfold Tokenizer.advance
    simp [hm]
  · intro hle
    unfold Tokenizer.advance
    by_cases hm : t.has_more_data
    · have hlt : t.token_position < t.char_count := by
        simpa [Tokenizer.has_more_data] using hm
      simp only [hm, if_true]
      omega
    · simp only [hm, if_false]
      exact hle
  · intro he
    induction n with
    | zero => rfl
    | succ n ih =>
        show (t.advanceN n).advance = t
        rw [ih]
        have hm : t.has_more_data = false := by
          simp [Tokenizer.has_more_data, he]
        unfold Tokenizer.advance
        simp [hm]

/-- Witness for C5 at concrete inputs. -/
theorem C5_advance_props_witness :
    (new ['a', 'b']).advance.token_position = (new ['a', 'b']).token_position + 1 ∧
    (new []).advance = new [] ∧
    (new ['a']).advance.token_position ≤ (new ['a']).char_count ∧
    (new []).advanceN 3 = new [] :=
  ⟨(C5_advance_props (new ['a', 'b']) 0).1 (by decide),
   (C5_advance_props (new []) 0).2.1 (by decide),
   (C5_advance_props (new ['a']) 0).2.2.1 (by decide),
   (C5_advance_props (new []) 3).2.2.2 (by decide)⟩

/-- Claim C6: `current_char` returns the Unicode scalar value at scalar
index `token_position` when `has_more_data` is true, and `none` (absence,
not an error) when it is false; `has_more_data` is exactly the truth of
`token_position < char_count`. -/
theorem C6_current_char_props (t : Tokenizer) (h : Reachable t) :
    (t.has_more_data = decide (t.token_position < t.char_count)) ∧
    (t.has_more_data = true →
      ∃ c : Char, t.data.get? t.token_position = some c ∧ t.current_char = some c) ∧
    (t.has_more_data = false → t.current_char = none) := by
  obtain ⟨⟨h1, h2⟩, h3⟩ := reachable_wf h
  refine ⟨rfl, ?_, ?_⟩
  · intro hm
    have hpc : t.token_position < t.char_count := by
      simpa [Tokenizer.has_more_data] using hm
    have hlt : t.token_position < t.data.length := by omega
    refine ⟨t.data.get ⟨t.token_position, hlt⟩, List.get?_eq_get hlt, ?_⟩
    unfold Tokenizer.current_char
    simp only [hm, if_true]
    exact List.get?_eq_get hlt
  · intro hm
    unfold Tokenizer.current_char
    simp [hm]

/-- Witness for C6 at a concrete input: past the end, absence rather than
an error. -/
theorem C6_current_char_props_witness :
    (new ['a']).advance.current_char = none :=
  (C6_current_char_props (new ['a']).advance
    (Reachable.advance (Reachable.new ['a']))).2.2 (by decide)

/-- Claim C3: with at least one character pending, `tokenize(category)`
appends exactly one token whose lexeme is the scalar-index range
`[token_start, token_position)` of the source text and whose category is
the given label, then sets `token_start` to `token_position`; nothing
else changes. -/
theorem C3_tokenize_emits (t : Tokenizer) (c : Category)
    (h : t.token_start ≠ t.token_position) :
    (t.tokenize c).tokens = t.tokens ++
      [{ lexeme := slice_chars t.data t.token_start t.token_position
         category := c }] ∧
    (t.tokenize c).token_start = t.token_position ∧
    (t.tokenize c).token_position = t.token_position ∧
    (t.tokenize c).data = t.data ∧
    (t.tokenize c).char_count = t.char_count := by
  unfold Tokenizer.tokenize
  simp [h]

/-- Witness for C3 at a concrete input. -/
theorem C3_tokenize_emits_witness :
    ((new ['a', 'b']).advance.tokenize Category.Keyword).tokens =
      (new ['a', 'b']).advance.tokens ++
        [{ lexeme := slice_chars (new ['a', 'b']).advance.data
             (new ['a', 'b']).advance.token_start (new ['a', 'b']).advance.token_position
           category := Category.Keyword }] :=
  (C3_tokenize_emits (new ['a', 'b']).advance Category.Keyword (by decide)).1

/-- Claim C7: with nothing pending, `tokenize` is a no-op; `tokenize`
twice in a row appends only on the first call; no stored token ever has
an empty lexeme. -/
theorem C7_tokenize_noop_props (t : Tokenizer) (c c' : Category) :
    (t.token_start = t.token_position → t.tokenize c = t) ∧
    ((t.tokenize c).tokenize c' = t.tokenize c) ∧
    (Reachable t → ∀ tok ∈ t.tokens, tok.lexeme ≠ []) :=
  ⟨tokenize_noop_of_eq c,
   tokenize_noop_of_eq c' (tokenize_token_start_eq t c),
   fun h => reachable_lexemes_ne_nil h⟩

/-- Witness for C7 at a concrete input. -/
theorem C7_tokenize_noop_props_witness :
    (new ['a']).tokenize Category.Text = new ['a'] :=
  (C7_tokenize_noop_props (new ['a']) Category.Text Category.Text).1 rfl

/-- Claim C9: `advance` and the read accessor leave the token list and
`token_start` unchanged; no operation modifies `data` or `char_count`;
and `tokenize_next` factors through its two internal `tokenize` calls
(the clamp step touching neither the token list nor `token_start`), so
`tokenize` is the sole mutator of both. -/
theorem C9_frame_props (t : Tokenizer) (amount : Nat) (c : Category) :
    t.advance.tokens = t.tokens ∧
    t.advance.token_start = t.token_start ∧
    t.tokens_list = t.tokens ∧
    t.advance.data = t.data ∧
    t.advance.char_count = t.char_count ∧
    (t.tokenize c).data = t.data ∧
    (t.tokenize c).char_count = t.char_count ∧
    (t.tokenize_next amount c).data = t.data ∧
    (t.tokenize_next amount c).char_count = t.char_count ∧
    t.tokenize_next amount c = (t.clamp_state amount).tokenize c ∧
    (t.clamp_state amount).tokens = (t.tokenize Category.Text).tokens ∧
    (t.clamp_state amount).token_start = (t.tokenize Category.Text).token_start :=
  ⟨advance_tokens t, advance_token_start t, rfl, advance_data t, advance_char_count t,
   tokenize_data t c, tokenize_char_count t c,
   by rw [tokenize_next_eq, tokenize_data, clamp_state_data],
   by rw [tokenize_next_eq, tokenize_char_count, clamp_state_char_count],
   tokenize_next_eq t amount c, clamp_state_tokens t amount,
   clamp_state_token_start t amount⟩

/-- Claim C2: the index-ordering invariant `0 ≤ token_start ≤
token_position ≤ char_count` holds after construction and is preserved by
every mutating operation (the read accessors do not produce states), and
`token_start = token_position` holds immediately after every `tokenize`
call. -/
theorem C2_invariant_props :
    (∀ data : List Char, Inv (new data)) ∧
    (∀ t : Tokenizer, Inv t → Inv t.advance) ∧
    (∀ (t : Tokenizer) (c : Category), Inv t → Inv (t.tokenize c)) ∧
    (∀ (t : Tokenizer) (amount : Nat) (c : Category),
      Inv t → Inv (t.tokenize_next amount c)) ∧
    (∀ (t : Tokenizer) (c : Category),
      (t.tokenize c).token_start = (t.tokenize c).token_position) :=
  ⟨inv_new, fun _ h => inv_advance h, fun _ c h => inv_tokenize c h,
   fun _ amount c h => inv_tokenize_next amount c h, tokenize_token_start_eq⟩

/-- Witness for C2 at concrete inputs. -/
theorem C2_invariant_props_witness :
    Inv (new ['a']).advance ∧
    Inv ((new ['a']).advance.tokenize Category.Text) ∧
    Inv ((new ['a']).tokenize_next 1 Category.Keyword) :=
  ⟨C2_invariant_props.2.1 (new ['a']) ⟨by decide, by decide⟩,
   C2_invariant_props.2.2.1 (new ['a']).advance Category.Text ⟨by decide, by decide⟩,
   C2_invariant_props.2.2.2.1 (new ['a']) 1 Category.Keyword ⟨by decide, by decide⟩⟩

/-- With `R = char_count - token_position` characters remaining,
`tokenize_next(amount, category)` in the idealized-integer model moves
the cursor by exactly `min amount R`, leaves `token_start` at the new
cursor, and appends first the pending span (if any) as a plain-text
token and then the newly consumed span (if non-empty) under the given
category.  The machine-faithful statement, restricted to the
non-overflowing amounts on which the source completes, is
`C1_tokenize_next_no_overflow` below. -/
theorem tokenize_next_consumes (t : Tokenizer) (amount : Nat) (c : Category)
    (h : Reachable t) :
    (t.tokenize_next amount c).token_position =
      t.token_position + min amount (t.char_count - t.token_position) ∧
    (t.tokenize_next amount c).token_start = (t.tokenize_next amount c).token_position ∧
    (t.tokenize_next amount c).tokens =
      t.tokens ++
        (if t.token_start = t.token_position then []
         else [{ lexeme := slice_chars t.data t.token_start t.token_position
                 category := Category.Text }]) ++
        (if min amount (t.char_count - t.token_position) = 0 then []
         else [{ lexeme := slice_chars t.data t.token_position
                   (t.token_position + min amount (t.char_count - t.token_position))
                 category := c }]) := by
  obtain ⟨⟨h1, h2⟩, h3⟩ := reachable_wf h
  have hcs_pos : (t.clamp_state amount).token_position =
      t.token_position + min amount (t.char_count - t.token_position) := by
    show min ((t.tokenize Category.Text).token_position + amount)
        (t.tokenize Category.Text).char_count = _
    rw [tokenize_position, tokenize_char_count]
    omega
  have hcs_start : (t.clamp_state amount).token_start = t.token_position := by
    rw [clamp_state_token_start, tokenize_token_start_eq, tokenize_position]
  refine ⟨?_, ?_, ?_⟩
  · rw [tokenize_next_eq, tokenize_position, hcs_pos]
  · rw [tokenize_next_eq]
    exact tokenize_token_start_eq _ c
  · rw [tokenize_next_eq, tokenize_tokens, clamp_state_tokens, tokenize_tokens,
      clamp_state_data, hcs_start, hcs_pos]
    by_cases hm0 : min amount (t.char_count - t.token_position) = 0
    · simp [hm0, List.append_assoc]
    · have hne : ¬ t.token_position =
          t.token_position + min amount (t.char_count - t.token_position) := by omega
      simp [hm0, hne, List.append_assoc]

/-- Claim C10: in every reachable state, the concatenation of the stored
lexemes, in list order, is exactly the scalar-index prefix
`[0, token_start)` of the source text. -/
theorem C10_tokens_tile (t : Tokenizer) (h : Reachable t) :
    (t.tokens.map Token.lexeme).flatten = t.data.take t.token_start :=
  reachable_flushed h

/-- Witness for C10 at a concrete input. -/
theorem C10_tokens_tile_witness :
    (((new "luthor".toList).advance.tokenize_next 4 Category.Keyword).tokens.map
        Token.lexeme).flatten =
      ((new "luthor".toList).advance.tokenize_next 4 Category.Keyword).data.take
        ((new "luthor".toList).advance.tokenize_next 4 Category.Keyword).token_start :=
  C10_tokens_tile _
    (Reachable.tokenize_next 4 Category.Keyword
      (Reachable.advance (Reachable.new "luthor".toList)))

theorem tokenize_next_usize_eq (t : Tokenizer) (amount : Nat) (c : Category) :
    tokenize_next_usize t amount c =
      if (t.tokenize Category.Text).token_position + amount < USIZE then
        some ((t.clamp_state amount).tokenize c)
      else none := rfl

theorem tokenize_next_usize_some {t : Tokenizer} (amount : Nat) (c : Category)
    (h : t.token_position + amount < USIZE) :
    tokenize_next_usize t amount c = some (t.tokenize_next amount c) := by
  have hp : (t.tokenize Category.Text).token_position + amount < USIZE := by
    rw [tokenize_position]
    exact h
  rw [tokenize_next_usize_eq, if_pos hp, tokenize_next_eq]

/-- Claim C1 counterexample: the claim quantifies over every call, but on
the tokenizer over "a" with the cursor advanced past the single character
(so `R = 0`) and `amount = USIZE - 1` (that is, `usize::MAX`), the machine
addition `token_position + amount` overflows and the call panics — `none`
in the machine-faithful model — instead of completing having consumed
`min(amount, R) = 0` characters. -/
theorem C1_counterexample_overflow :
    tokenize_next_usize (new ['a']).advance (USIZE - 1) Category.Text = none ∧
    min (USIZE - 1)
      ((new ['a']).advance.char_count - (new ['a']).advance.token_position) = 0 := by
  constructor
  · decide
  · decide

/-- Claim C1 amended: for every call to `tokenize_next(amount, category)`
in which the usize addition `token_position + amount` does not overflow,
the call completes (the machine-faithful model agrees with the idealized
one), and with `R = char_count - token_position` characters remaining it
moves the cursor by exactly `min amount R`, leaves `token_start` at the
new cursor, and appends first the pending span (if any) as a plain-text
token and then the newly consumed span (if non-empty) under the given
category; `amount = 0` with no pending text appends nothing. -/
theorem C1_tokenize_next_no_overflow (t : Tokenizer) (amount : Nat) (c : Category)
    (h : Reachable t) (hov : t.token_position + amount < USIZE) :
    tokenize_next_usize t amount c = some (t.tokenize_next amount c) ∧
    (t.tokenize_next amount c).token_position =
      t.token_position + min amount (t.char_count - t.token_position) ∧
    (t.tokenize_next amount c).token_start = (t.tokenize_next amount c).token_position ∧
    (t.tokenize_next amount c).tokens =
      t.tokens ++
        (if t.token_start = t.token_position then []
         else [{ lexeme := slice_chars t.data t.token_start t.token_position
                 category := Category.Text }]) ++
        (if min amount (t.char_count - t.token_position) = 0 then []
         else [{ lexeme := slice_chars t.data t.token_position
                   (t.token_position + min amount (t.char_count - t.token_position))
                 category := c }]) :=
  ⟨tokenize_next_usize_some amount c hov, tokenize_next_consumes t amount c h⟩

/-- Witness for the amended C1 at a concrete input. -/
theorem C1_tokenize_next_no_overflow_witness :
    tokenize_next_usize (new "luthor".toList).advance 5 Category.Keyword =
      some ((new "luthor".toList).advance.tokenize_next 5 Category.Keyword) :=
  (C1_tokenize_next_no_overflow (new "luthor".toList).advance 5 Category.Keyword
    (Reachable.advance (Reachable.new "luthor".toList)) (by decide)).1

/-- Claim C8 counterexample: `tokenize_next` is not total over the full
usize range.  On the tokenizer over "a" with the cursor advanced past the
single character, the amount `USIZE - 1` makes the machine addition
`token_position + amount` overflow, which is a panic (directly in a
checked build; via the subsequent `slice_chars` call in an unchecked
build), modelled here as `none`. -/
theorem C8_counterexample_overflow :
    tokenize_next_usize (new ['a']).advance (USIZE - 1) Category.Keyword = none := by
  decide

/-- Claim C8 amended: for every state and every `amount` such that
`token_position + amount` does not overflow usize, `tokenize_next`
completes without failure (the machine-arithmetic model agrees with the
idealized one) and the cursor is clamped to at most `char_count`. -/
theorem C8_amended_no_overflow (t : Tokenizer) (amount : Nat) (c : Category)
    (h : t.token_position + amount < USIZE) :
    tokenize_next_usize t amount c = some (t.tokenize_next amount c) ∧
    (t.tokenize_next amount c).token_position ≤ t.char_count := by
  constructor
  · have hp : (t.tokenize Category.Text).token_position + amount < USIZE := by
      rw [tokenize_position]
      exact h
    rw [tokenize_next_usize_eq, if_pos hp, tokenize_next_eq]
  · rw [tokenize_next_eq, tokenize_position]
    have hle : (t.clamp_state amount).token_position ≤
        (t.tokenize Category.Text).char_count := Nat.min_le_right _ _
    rwa [tokenize_char_count] at hle

/-- Witness for the amended C8 at a concrete input. -/
theorem C8_amended_no_overflow_witness :
    tokenize_next_usize (new ['a']) 3 Category.Keyword =
      some ((new ['a']).tokenize_next 3 Category.Keyword) :=
  (C8_amended_no_overflow (new ['a']) 3 Category.Keyword (by decide)).1

end Luthor
